import Mathlib

/-!
Verification of the attachment state machine of the `user_channel` sample
(`samples/user_channel/sample_user_channel.cc`).

The sample owns an attachment state (`attached_`, `attach_joint_`,
`box_world_transform_`, `box_local_transform_`) and a scratch buffer of
model-space joint matrices (`models_`).  Every simulation step either
samples the track directly (`Update_SamplingMethod`) or walks the track's
threshold crossings (`Update_TriggeringMethod`), then recomputes the box
world transform from the attachment state (`OnUpdate`).

Matrices are modelled over exact rational arithmetic
(`Matrix (Fin 4) (Fin 4) ℚ`); the ozz runtime collaborators that are not
part of this repository slice (track triggering job, track sampling job,
animation sampling + local-to-model jobs) are modelled from the spec, as
documented on each definition.
-/

set_option autoImplicit false

/-- Transform matrices (4x4), over exact rational arithmetic (the C++ code
uses `ozz::math::Float4x4`; floating point rounding is out of scope). -/
abbrev M4 : Type := Matrix (Fin 4) (Fin 4) ℚ

/-- Modelled from the spec: `ozz::math::Invert` (the matrix inverse used by
the sample, not part of this repository slice).  Over a field the inverse of
a matrix with non-zero determinant is `det⁻¹ • adjugate`. -/
def Invert (m : M4) : M4 := m.det⁻¹ • m.adjugate

/-- A threshold-crossing event of the track
(`FloatTrackTriggeringJob::Edge`): a time in the normalized ratio domain
and a direction flag (`rising`). -/
structure Edge where
  time : ℚ
  rising : Bool
deriving DecidableEq

/-- Modelled from the spec: the scalar track collaborator
(`ozz::animation::FloatTrack`, not part of this repository slice), reduced
to its contract: it can be sampled at a ratio, and for every threshold it
determines the ordered list of crossing events over the whole `[0,1]`
domain.  `valid` models a malformed track, whose evaluation fails. -/
structure FloatTrack where
  valid : Bool
  sample : ℚ → ℚ
  crossingsAt : ℚ → List Edge

/-- The crossings of a track that fall in the half-open interval `[lo, hi)`.
Consecutive queries over `[a,b)` and `[b,c)` thus partition `[a,c)` and a
degenerate interval holds no edges, as the spec requires. -/
def filterInterval (lo hi : ℚ) (l : List Edge) : List Edge :=
  l.filter (fun e => decide (lo ≤ e.time ∧ e.time < hi))

/-- Modelled from the spec: `FloatTrackTriggeringJob::Run` (not part of this
repository slice).  Fails on a malformed track, and fails (overflow) when
the interval holds more edges than the caller's buffer; the sample supplies
a buffer of 8 edges (`edges_buffer[8]`). -/
def detectEdges (track : FloatTrack) (lo hi threshold : ℚ) : Option (List Edge) :=
  if track.valid then
    let es := filterInterval lo hi (track.crossingsAt threshold)
    if es.length ≤ 8 then some es else none
  else none

/-- Modelled from the spec: `FloatTrackSamplingJob::Run` (not part of this
repository slice): samples the track's interpolated value at a ratio,
failing on a malformed track. -/
def FloatTrackSamplingJob_Run (track : FloatTrack) (t : ℚ) : Option ℚ :=
  if track.valid then some (track.sample t) else none

/-- The collaborators a step of the sample reads: the animation duration,
the skeleton's joint count, the pose evaluator and the track.  `poseAt t`
is modelled from the spec: it stands for `SamplingJob` followed by
`LocalToModelJob` at time `t` (neither is part of this repository slice),
producing the buffer of model-space matrices, or `none` when either job
fails. -/
structure Env where
  duration : ℚ
  numJoints : ℕ
  poseAt : ℚ → Option (List M4)
  track : FloatTrack

/-- The mutable state of `LoadSampleApplication` that the update functions
touch: the attachment flag, the attachment joint index, the box transforms
and the model-matrix scratch buffer `models_`. -/
structure AppState where
  attached : Bool
  attachJoint : ℕ
  boxWorld : M4
  boxLocal : M4
  models : List M4

/-- Embeds `Update_Joints(_time)`: samples the animation and converts to model
space, overwriting the `models_` scratch buffer.  On failure the state is
left as it was and `false` is returned (the C++ returns `false` before any
buffer is committed). -/
def Update_Joints (env : Env) (t : ℚ) (s : AppState) : AppState × Bool :=
  match env.poseAt t with
  | none => (s, false)
  | some ms => ({ s with models := ms }, true)

/-- The edge loop body of `Update_TriggeringMethod` (lines 172-195): for
each edge set `attached_ = edge.rising`, re-evaluate the pose at
`edge.time * animation_.duration()`, then capture the box local transform
on a rising edge or its world transform on a falling edge.  A pose failure
aborts, keeping the state mutated so far. -/
def processEdges (env : Env) : List Edge → AppState → AppState × Bool
  | [], s => (s, true)
  | e :: rest, s =>
    let s1 : AppState := { s with attached := e.rising }
    match Update_Joints env (e.time * env.duration) s1 with
    | (s2, false) => (s2, false)
    | (s2, true) =>
      let s3 : AppState :=
        if e.rising then
          { s2 with boxLocal := Invert (s2.models.getD s2.attachJoint 1) * s2.boxWorld }
        else
          { s2 with boxWorld := s2.models.getD s2.attachJoint 1 * s2.boxLocal }
      processEdges env rest s3

/-- Embeds `Update_TriggeringMethod()`: query the track's edges over the ratio
interval from `previous_time/duration` to `time/duration` with threshold
`.5`, process each edge in order, then evaluate the pose at the current
time.  Any failure aborts the step without rolling back. -/
def Update_TriggeringMethod (env : Env) (tprev tcur : ℚ) (s : AppState) : AppState × Bool :=
  match detectEdges env.track (tprev / env.duration) (tcur / env.duration) (1 / 2) with
  | none => (s, false)
  | some es =>
    match processEdges env es s with
    | (s1, false) => (s1, false)
    | (s1, true) => Update_Joints env tcur s1

/-- Embeds `Update_SamplingMethod()`: evaluate the pose at the current time,
sample the track at ratio `time/duration`, set
`attached_ = (value != 0)`, and when the flag transitions from detached to
attached recapture `box_local_transform_` against the attachment joint. -/
def Update_SamplingMethod (env : Env) (tcur : ℚ) (s : AppState) : AppState × Bool :=
  match Update_Joints env tcur s with
  | (s1, false) => (s1, false)
  | (s1, true) =>
    match FloatTrackSamplingJob_Run env.track (tcur / env.duration) with
    | none => (s1, false)
    | some v =>
      let previously := s1.attached
      let s2 : AppState := { s1 with attached := decide (v ≠ 0) }
      if s2.attached && !previously then
        ({ s2 with boxLocal := Invert (s2.models.getD s2.attachJoint 1) * s2.boxWorld }, true)
      else
        (s2, true)

/-- Embeds `OnUpdate(_dt)` after the playback controller advanced the clock:
dispatch on the selected method (`0` = sampling, otherwise triggering),
then, when the update succeeded, recompute
`box_world_transform_ = models_[attach_joint_] * box_local_transform_`
when attached, and leave the box where it is otherwise. -/
def OnUpdate (env : Env) (tprev tcur : ℚ) (method : ℤ) (s : AppState) : AppState × Bool :=
  match (if method = 0 then Update_SamplingMethod env tcur s
         else Update_TriggeringMethod env tprev tcur s) with
  | (s1, false) => (s1, false)
  | (s1, true) =>
    if s1.attached then
      ({ s1 with boxWorld := s1.models.getD s1.attachJoint 1 * s1.boxLocal }, true)
    else
      (s1, true)

/-- Modelled from the spec: the C library substring test `std::strstr`
used by `OnInitialize`; `true` iff `needle` occurs contiguously in
`hay`. -/
def strstrB (hay needle : String) : Bool :=
  (List.range (hay.toList.length + 1)).any
    (fun i => needle.toList.isPrefixOf (hay.toList.drop i))

/-- The attachment-joint search loop of `OnInitialize` (lines 256-261):
walk joint names in index order, keep the first index whose name contains
`sub`, leave the default `0` when none does. -/
def findAttachJointGo (sub : String) : List String → ℕ → ℕ
  | [], _ => 0
  | n :: rest, i => if strstrB n sub then i else findAttachJointGo sub rest (i + 1)

/-- The attachment joint computed at initialization, starting from the
constructor default `attach_joint_ = 0`. -/
def findAttachJoint (sub : String) (names : List String) : ℕ :=
  findAttachJointGo sub names 0

/-- Specification-side form of the joint search, following the spec's
words: the index of the first joint whose name contains the configured
substring, if any. -/
def specFirstMatch (sub : String) : List String → Option ℕ
  | [] => none
  | n :: rest =>
    if strstrB n sub then some 0 else (specFirstMatch sub rest).map (· + 1)

/-- The per-edge state transformer of the triggering method, written as a
pure function of the (total) pose evaluation `pf`: set the flag from the
edge direction, refresh the model matrices at the exact edge time, then
capture the local transform (rising) or the world transform (falling). -/
def edgeStep (env : Env) (pf : ℚ → List M4) (s : AppState) (e : Edge) : AppState :=
  let s1 : AppState := { s with attached := e.rising, models := pf (e.time * env.duration) }
  if e.rising then
    { s1 with boxLocal := Invert (s1.models.getD s1.attachJoint 1) * s1.boxWorld }
  else
    { s1 with boxWorld := s1.models.getD s1.attachJoint 1 * s1.boxLocal }

/-- The tail of a successful triggering step followed by `OnUpdate`'s
framing stage, as a pure function: refresh the model matrices at the
current time, then recompute the box world transform when attached. -/
def tailStep (pf : ℚ → List M4) (tcur : ℚ) (s : AppState) : AppState :=
  let s1 : AppState := { s with models := pf tcur }
  if s1.attached then
    { s1 with boxWorld := s1.models.getD s1.attachJoint 1 * s1.boxLocal }
  else
    s1

/-! ### Basic lemmas about the modelled collaborators -/

theorem Invert_one : Invert (1 : M4) = 1 := by
  unfold Invert
  simp

theorem Update_Joints_some (env : Env) (t : ℚ) (s : AppState) (ms : List M4)
    (h : env.poseAt t = some ms) :
    Update_Joints env t s = ({ s with models := ms }, true) := by
  unfold Update_Joints
  rw [h]

theorem Update_Joints_none (env : Env) (t : ℚ) (s : AppState)
    (h : env.poseAt t = none) :
    Update_Joints env t s = (s, false) := by
  unfold Update_Joints
  rw [h]

theorem filterInterval_cons (lo hi : ℚ) (x : Edge) (xs : List Edge) :
    filterInterval lo hi (x :: xs) =
      if lo ≤ x.time ∧ x.time < hi then x :: filterInterval lo hi xs
      else filterInterval lo hi xs := by
  simp only [filterInterval, List.filter_cons, decide_eq_true_eq]

theorem filterInterval_self (a : ℚ) (l : List Edge) : filterInterval a a l = [] := by
  unfold filterInterval
  apply List.filter_eq_nil_iff.mpr
  intro e _
  simp only [decide_eq_true_eq, not_and, not_lt]
  intro h
  exact h

theorem filterInterval_nil_of_ge (lo hi : ℚ) (l : List Edge)
    (h : ∀ y ∈ l, hi ≤ y.time) : filterInterval lo hi l = [] := by
  unfold filterInterval
  apply List.filter_eq_nil_iff.mpr
  intro y hy
  simp only [decide_eq_true_eq, not_and, not_lt]
  intro _
  exact h y hy

theorem filterInterval_low_shift (a b c : ℚ) (l : List Edge)
    (hab : a ≤ b) (h : ∀ y ∈ l, b ≤ y.time) :
    filterInterval a c l = filterInterval b c l := by
  unfold filterInterval
  apply List.filter_congr
  intro y hy
  have hb := h y hy
  have ha := le_trans hab hb
  simp [ha, hb]

theorem filterInterval_split (a b c : ℚ) (hab : a ≤ b) (hbc : b ≤ c) :
    ∀ (l : List Edge), List.Pairwise (fun x y : Edge => x.time < y.time) l →
      filterInterval a c l = filterInterval a b l ++ filterInterval b c l := by
  intro l
  induction l with
  | nil => intro _; rfl
  | cons x xs ih =>
    intro hp
    rw [List.pairwise_cons] at hp
    obtain ⟨hx, hxs⟩ := hp
    rw [filterInterval_cons, filterInterval_cons, filterInterval_cons]
    by_cases hxb : x.time < b
    · have hnb : ¬ (b ≤ x.time ∧ x.time < c) := fun hh => absurd hh.1 (not_le.mpr hxb)
      by_cases hxa : a ≤ x.time
      · have hxc : x.time < c := lt_of_lt_of_le hxb hbc
        rw [if_pos ⟨hxa, hxc⟩, if_pos ⟨hxa, hxb⟩, if_neg hnb, List.cons_append, ih hxs]
      · have hna : ∀ hi : ℚ, ¬ (a ≤ x.time ∧ x.time < hi) := fun _ hh => absurd hh.1 hxa
        rw [if_neg (hna c), if_neg (hna b), if_neg hnb]
        exact ih hxs
    · have hxb' : b ≤ x.time := not_lt.mp hxb
      have hax : a ≤ x.time := le_trans hab hxb'
      have hnab : ¬ (a ≤ x.time ∧ x.time < b) := fun hh => absurd hh.2 hxb
      have hxs_ge : ∀ y ∈ xs, b ≤ y.time := fun y hy => le_trans hxb' (le_of_lt (hx y hy))
      have hab_nil : filterInterval a b xs = [] := by
        apply filterInterval_nil_of_ge
        intro y hy
        exact le_trans hxb' (le_of_lt (hx y hy))
      have hshift : filterInterval a c xs = filterInterval b c xs :=
        filterInterval_low_shift a b c xs hab hxs_ge
      by_cases hxc : x.time < c
      · rw [if_pos ⟨hax, hxc⟩, if_neg hnab, if_pos ⟨hxb', hxc⟩, hab_nil, List.nil_append,
          hshift]
      · have hn1 : ¬ (a ≤ x.time ∧ x.time < c) := fun hh => absurd hh.2 hxc
        have hn2 : ¬ (b ≤ x.time ∧ x.time < c) := fun hh => absurd hh.2 hxc
        rw [if_neg hn1, if_neg hnab, if_neg hn2, hab_nil, List.nil_append, hshift]

theorem appendEqSingleton {α : Type} (a b : List α) (x : α) (h : a ++ b = [x]) :
    (a = [x] ∧ b = []) ∨ (a = [] ∧ b = [x]) := by
  cases a with
  | nil => right; exact ⟨rfl, by simpa using h⟩
  | cons y ys =>
    left
    simp only [List.cons_append, List.cons.injEq] at h
    obtain ⟨hy, hrest⟩ := h
    have := List.append_eq_nil.mp hrest
    simp [hy, this.1, this.2]

/-! ### Characterizations of the edge-processing loop -/

theorem processEdges_total (env : Env) (pf : ℚ → List M4)
    (hpose : ∀ t, env.poseAt t = some (pf t)) :
    ∀ (es : List Edge) (s : AppState),
      processEdges env es s = (es.foldl (edgeStep env pf) s, true) := by
  intro es
  induction es with
  | nil => intro s; rfl
  | cons e rest ih =>
    intro s
    simp only [processEdges, Update_Joints, hpose, List.foldl_cons]
    rw [ih]
    rfl

theorem processEdges_append (env : Env) :
    ∀ (a b : List Edge) (s sA : AppState),
      processEdges env a s = (sA, true) →
      processEdges env (a ++ b) s = processEdges env b sA := by
  intro a
  induction a with
  | nil =>
    intro b s sA h
    simp only [processEdges] at h
    cases h
    rfl
  | cons e rest ih =>
    intro b s sA h
    cases hu : env.poseAt (e.time * env.duration) with
    | none =>
      simp only [processEdges, List.cons_append, Update_Joints, hu] at h
      exact absurd (congrArg Prod.snd h) (by simp)
    | some ms =>
      simp only [processEdges, List.cons_append, Update_Joints, hu] at h ⊢
      exact ih b _ sA h

theorem processEdges_attachJoint (env : Env) :
    ∀ (es : List Edge) (s : AppState),
      ((processEdges env es s).1).attachJoint = s.attachJoint := by
  intro es
  induction es with
  | nil => intro s; rfl
  | cons e rest ih =>
    intro s
    simp only [processEdges]
    cases hu : env.poseAt (e.time * env.duration) with
    | none => simp [Update_Joints, hu]
    | some ms =>
      simp only [Update_Joints, hu]
      cases e.rising <;> simp [ih]

theorem processEdges_models_length (env : Env) (N : ℕ)
    (hwf : ∀ t ms, env.poseAt t = some ms → ms.length = N) :
    ∀ (es : List Edge) (s : AppState), s.models.length = N →
      ((processEdges env es s).1).models.length = N := by
  intro es
  induction es with
  | nil => intro s hs; exact hs
  | cons e rest ih =>
    intro s hs
    cases hu : env.poseAt (e.time * env.duration) with
    | none =>
      simp only [processEdges, Update_Joints, hu]
      exact hs
    | some ms =>
      have hlen : ms.length = N := hwf _ _ hu
      cases hr : e.rising <;>
        simp only [processEdges, Update_Joints, hu, hr, if_true, if_false,
          Bool.false_eq_true, ite_false, ite_true] <;>
        exact ih _ hlen

theorem Update_Joints_attachJoint (env : Env) (t : ℚ) (s : AppState) :
    ((Update_Joints env t s).1).attachJoint = s.attachJoint := by
  unfold Update_Joints
  cases env.poseAt t <;> rfl

theorem Update_Joints_models_length (env : Env) (N : ℕ)
    (hwf : ∀ t ms, env.poseAt t = some ms → ms.length = N)
    (t : ℚ) (s : AppState) (hs : s.models.length = N) :
    ((Update_Joints env t s).1).models.length = N := by
  unfold Update_Joints
  cases hu : env.poseAt t with
  | none => exact hs
  | some ms => exact hwf _ _ hu

theorem Update_TriggeringMethod_attachJoint (env : Env) (tp tc : ℚ) (s : AppState) :
    ((Update_TriggeringMethod env tp tc s).1).attachJoint = s.attachJoint := by
  unfold Update_TriggeringMethod
  cases detectEdges env.track (tp / env.duration) (tc / env.duration) (1 / 2) with
  | none => rfl
  | some es =>
    simp only []
    cases hp : processEdges env es s with
    | mk s1 ok =>
      have h1 : s1.attachJoint = s.attachJoint := by
        have h := processEdges_attachJoint env es s
        rw [hp] at h
        exact h
      cases ok with
      | false => exact h1
      | true =>
        have h := Update_Joints_attachJoint env tc s1
        rw [h1] at h
        exact h

theorem Update_TriggeringMethod_models_length (env : Env) (N : ℕ)
    (hwf : ∀ t ms, env.poseAt t = some ms → ms.length = N)
    (tp tc : ℚ) (s : AppState) (hs : s.models.length = N) :
    ((Update_TriggeringMethod env tp tc s).1).models.length = N := by
  unfold Update_TriggeringMethod
  cases detectEdges env.track (tp / env.duration) (tc / env.duration) (1 / 2) with
  | none => exact hs
  | some es =>
    simp only []
    cases hp : processEdges env es s with
    | mk s1 ok =>
      have h1 : s1.models.length = N := by
        have h := processEdges_models_length env N hwf es s hs
        rw [hp] at h
        exact h
      cases ok with
      | false => exact h1
      | true => exact Update_Joints_models_length env N hwf tc s1 h1

theorem Update_SamplingMethod_attachJoint (env : Env) (tc : ℚ) (s : AppState) :
    ((Update_SamplingMethod env tc s).1).attachJoint = s.attachJoint := by
  unfold Update_SamplingMethod Update_Joints FloatTrackSamplingJob_Run
  cases env.poseAt tc <;> cases env.track.valid <;> simp only [if_true, if_false,
    Bool.false_eq_true, ite_false, ite_true] <;> try rfl
  all_goals (split <;> rfl)

theorem Update_SamplingMethod_models_length (env : Env) (N : ℕ)
    (hwf : ∀ t ms, env.poseAt t = some ms → ms.length = N)
    (tc : ℚ) (s : AppState) (hs : s.models.length = N) :
    ((Update_SamplingMethod env tc s).1).models.length = N := by
  unfold Update_SamplingMethod Update_Joints FloatTrackSamplingJob_Run
  cases hu : env.poseAt tc with
  | none => cases env.track.valid <;> exact hs
  | some ms =>
    have hlen : ms.length = N := hwf _ _ hu
    cases env.track.valid <;> simp only [if_true, if_false, Bool.false_eq_true,
      ite_false, ite_true] <;> try exact hlen
    all_goals (split <;> exact hlen)

theorem OnUpdate_attachJoint (env : Env) (tp tc : ℚ) (method : ℤ) (s : AppState) :
    ((OnUpdate env tp tc method s).1).attachJoint = s.attachJoint := by
  unfold OnUpdate
  cases hin : (if method = 0 then Update_SamplingMethod env tc s
               else Update_TriggeringMethod env tp tc s) with
  | mk s1 ok =>
    have h1 : s1.attachJoint = s.attachJoint := by
      by_cases hm : method = 0
      · rw [if_pos hm] at hin
        have h := Update_SamplingMethod_attachJoint env tc s
        rw [hin] at h
        exact h
      · rw [if_neg hm] at hin
        have h := Update_TriggeringMethod_attachJoint env tp tc s
        rw [hin] at h
        exact h
    cases ok with
    | false => exact h1
    | true =>
      cases ha : s1.attached <;> simp only [ha, if_true, if_false, Bool.false_eq_true,
        ite_false, ite_true] <;> exact h1

theorem OnUpdate_models_length (env : Env) (N : ℕ)
    (hwf : ∀ t ms, env.poseAt t = some ms → ms.length = N)
    (tp tc : ℚ) (method : ℤ) (s : AppState) (hs : s.models.length = N) :
    ((OnUpdate env tp tc method s).1).models.length = N := by
  unfold OnUpdate
  cases hin : (if method = 0 then Update_SamplingMethod env tc s
               else Update_TriggeringMethod env tp tc s) with
  | mk s1 ok =>
    have h1 : s1.models.length = N := by
      by_cases hm : method = 0
      · rw [if_pos hm] at hin
        have h := Update_SamplingMethod_models_length env N hwf tc s hs
        rw [hin] at h
        exact h
      · rw [if_neg hm] at hin
        have h := Update_TriggeringMethod_models_length env N hwf tp tc s hs
        rw [hin] at h
        exact h
    cases ok with
    | false => exact h1
    | true =>
      cases ha : s1.attached <;> simp only [ha, if_true, if_false, Bool.false_eq_true,
        ite_false, ite_true] <;> exact h1

theorem triggering_char (env : Env) (pf : ℚ → List M4)
    (hpose : ∀ t, env.poseAt t = some (pf t))
    (tp tc : ℚ) (s : AppState) :
    Update_TriggeringMethod env tp tc s =
      match detectEdges env.track (tp / env.duration) (tc / env.duration) (1 / 2) with
      | none => (s, false)
      | some es => ({ es.foldl (edgeStep env pf) s with models := pf tc }, true) := by
  unfold Update_TriggeringMethod
  cases detectEdges env.track (tp / env.duration) (tc / env.duration) (1 / 2) with
  | none => rfl
  | some es =>
    simp only []
    rw [processEdges_total env pf hpose es s]
    exact Update_Joints_some env tc _ (pf tc) (hpose tc)

theorem fullB_char (env : Env) (pf : ℚ → List M4)
    (hpose : ∀ t, env.poseAt t = some (pf t))
    (tp tc : ℚ) (s : AppState) (es : List Edge)
    (hdet : detectEdges env.track (tp / env.duration) (tc / env.duration) (1 / 2) = some es) :
    OnUpdate env tp tc 1 s = (tailStep pf tc (es.foldl (edgeStep env pf) s), true) := by
  unfold OnUpdate
  rw [if_neg (by norm_num : ¬ (1 : ℤ) = 0), triggering_char env pf hpose tp tc s, hdet]
  unfold tailStep
  cases ha : (es.foldl (edgeStep env pf) s).attached <;>
    simp only [ha, if_true, if_false, Bool.false_eq_true, ite_false, ite_true]

/-! ### The attachment-joint search -/

theorem findAttachJointGo_spec (sub : String) :
    ∀ (names : List String) (i : ℕ),
      findAttachJointGo sub names i =
        match specFirstMatch sub names with
        | some j => i + j
        | none => 0 := by
  intro names
  induction names with
  | nil => intro i; rfl
  | cons n rest ih =>
    intro i
    by_cases h : strstrB n sub
    · simp [findAttachJointGo, specFirstMatch, h]
    · simp only [findAttachJointGo, specFirstMatch, h, Bool.false_eq_true, if_false,
        ite_false]
      rw [ih (i + 1)]
      cases hm : specFirstMatch sub rest with
      | none => rfl
      | some j =>
        simp only [Option.map_some']
        show i + 1 + j = i + (j + 1)
        omega

theorem specFirstMatch_none (sub : String) :
    ∀ (names : List String), (∀ n ∈ names, strstrB n sub = false) →
      specFirstMatch sub names = none := by
  intro names
  induction names with
  | nil => intro _; rfl
  | cons n rest ih =>
    intro h
    have hn : strstrB n sub = false := h n (by simp)
    simp only [specFirstMatch, hn, Bool.false_eq_true, if_false, ite_false]
    rw [ih (fun m hm => h m (by simp [hm]))]
    rfl

theorem findAttachJointGo_bound (sub : String) :
    ∀ (names : List String) (i : ℕ),
      findAttachJointGo sub names i = 0 ∨
        ∃ j, j < names.length ∧ findAttachJointGo sub names i = i + j := by
  intro names
  induction names with
  | nil => intro _; left; rfl
  | cons n rest ih =>
    intro i
    by_cases h : strstrB n sub
    · right
      exact ⟨0, by simp, by simp [findAttachJointGo, h]⟩
    · rcases ih (i + 1) with h0 | ⟨j, hj, he⟩
      · left
        simp [findAttachJointGo, h, h0]
      · right
        refine ⟨j + 1, by simp only [List.length_cons]; omega, ?_⟩
        simp only [findAttachJointGo, h, Bool.false_eq_true, if_false, ite_false]
        rw [he]
        omega

/-! ### Concrete fixtures for the witnesses -/

/-- A concrete track with a single rising crossing at ratio `3/4`,
used by the concrete evaluations below. -/
def cTrack : FloatTrack :=
  { valid := true, sample := fun _ => 0, crossingsAt := fun _ => [⟨3 / 4, true⟩] }

/-- A concrete environment: unit duration, one joint, every pose evaluation
yielding the identity joint matrix. -/
def cEnv : Env :=
  { duration := 1, numJoints := 1, poseAt := fun _ => some [1], track := cTrack }

/-- A concrete app state with the given attachment flag; the box world
transform is the identity and its local transform is `2 • 1`. -/
def cState (a : Bool) : AppState :=
  { attached := a, attachJoint := 0, boxWorld := 1, boxLocal := (2 : ℚ) • 1,
    models := [1] }

theorem cEnv_wf : ∀ (t : ℚ) (ms : List M4),
    cEnv.poseAt t = some ms → ms.length = cEnv.numJoints := by
  intro t ms h
  simp only [cEnv] at h
  have h2 : ([1] : List M4) = ms := by injection h
  rw [← h2]
  rfl

/-! ### Claim theorems -/

/-- C7: at initialization the attachment joint becomes the index of the
first joint (scanning indices in order) whose name contains the configured
substring, and stays at the constructor default `0` when no joint name
contains it. -/
theorem attachJoint_first_match :
    (∀ (sub : String) (names : List String),
        findAttachJoint sub names = (specFirstMatch sub names).getD 0)
    ∧ (∀ (sub : String) (names : List String),
        (∀ n ∈ names, strstrB n sub = false) → findAttachJoint sub names = 0) := by
  constructor
  · intro sub names
    unfold findAttachJoint
    rw [findAttachJointGo_spec sub names 0]
    cases specFirstMatch sub names with
    | none => rfl
    | some j => simp
  · intro sub names h
    unfold findAttachJoint
    rw [findAttachJointGo_spec sub names 0, specFirstMatch_none sub names h]

/-- Witness for `attachJoint_first_match` at concrete joint-name lists. -/
theorem attachJoint_first_match_witness :
    findAttachJoint "thumb2" ["hand", "xthumb2y"]
        = (specFirstMatch "thumb2" ["hand", "xthumb2y"]).getD 0
    ∧ findAttachJoint "thumb2" ["hand"] = 0 :=
  ⟨attachJoint_first_match.1 "thumb2" ["hand", "xthumb2y"],
   attachJoint_first_match.2 "thumb2" ["hand"] (by decide)⟩

/-- C8: the attach computation `local = Invert M * W` followed by the
detach computation `M * local` reconstructs the original world transform
`W` for every world transform and every invertible joint matrix, over
exact arithmetic. -/
theorem attach_detach_roundtrip (M W : M4) (h : M.det ≠ 0) :
    M * (Invert M * W) = W := by
  have hMi : M * Invert M = 1 := by
    unfold Invert
    rw [Matrix.mul_smul, Matrix.mul_adjugate, smul_smul, inv_mul_cancel₀ h, one_smul]
  rw [← mul_assoc, hMi, one_mul]

/-- Witness for `attach_detach_roundtrip` at the identity joint matrix. -/
theorem attach_detach_roundtrip_witness :
    (1 : M4).det ≠ 0 ∧ (1 : M4) * (Invert 1 * 1) = 1 :=
  ⟨by simp, attach_detach_roundtrip 1 1 (by simp)⟩

/-- C10: with a non-empty skeleton the initialization loop establishes
`attachJoint < numJoints`; no update operation ever writes the attachment
joint again; the model-matrix buffer keeps exactly `numJoints` entries
through every step whenever pose evaluations fill it with `numJoints`
matrices; hence the `models_[attach_joint_]` access stays in bounds after
any step. -/
theorem attachJoint_in_bounds :
    (∀ (sub : String) (names : List String), names ≠ [] →
        findAttachJoint sub names < names.length)
    ∧ (∀ (env : Env) (tp tc : ℚ) (method : ℤ) (s : AppState),
        ((OnUpdate env tp tc method s).1).attachJoint = s.attachJoint)
    ∧ (∀ (env : Env) (tp tc : ℚ) (method : ℤ) (s : AppState),
        (∀ t ms, env.poseAt t = some ms → ms.length = env.numJoints) →
        s.models.length = env.numJoints →
        ((OnUpdate env tp tc method s).1).models.length = env.numJoints)
    ∧ (∀ (env : Env) (tp tc : ℚ) (method : ℤ) (s : AppState),
        (∀ t ms, env.poseAt t = some ms → ms.length = env.numJoints) →
        s.models.length = env.numJoints →
        s.attachJoint < env.numJoints →
        ((OnUpdate env tp tc method s).1).attachJoint
          < ((OnUpdate env tp tc method s).1).models.length) := by
  refine ⟨?_, ?_, ?_, ?_⟩
  · intro sub names hne
    unfold findAttachJoint
    rcases findAttachJointGo_bound sub names 0 with h0 | ⟨j, hj, he⟩
    · rw [h0]
      exact List.length_pos.mpr hne
    · rw [he]
      simpa using hj
  · intro env tp tc method s
    exact OnUpdate_attachJoint env tp tc method s
  · intro env tp tc method s hwf hs
    exact OnUpdate_models_length env env.numJoints hwf tp tc method s hs
  · intro env tp tc method s hwf hs hj
    rw [OnUpdate_attachJoint env tp tc method s,
        OnUpdate_models_length env env.numJoints hwf tp tc method s hs]
    exact hj

/-- Witness for `attachJoint_in_bounds` at a concrete skeleton and a
concrete step. -/
theorem attachJoint_in_bounds_witness :
    findAttachJoint "thumb2" ["xthumb2"] < 1
    ∧ ((OnUpdate cEnv 0 1 1 (cState false)).1).attachJoint = 0
    ∧ ((OnUpdate cEnv 0 1 1 (cState false)).1).models.length = 1
    ∧ ((OnUpdate cEnv 0 1 1 (cState false)).1).attachJoint
        < ((OnUpdate cEnv 0 1 1 (cState false)).1).models.length :=
  ⟨attachJoint_in_bounds.1 "thumb2" ["xthumb2"] (by simp),
   attachJoint_in_bounds.2.1 cEnv 0 1 1 (cState false),
   attachJoint_in_bounds.2.2.1 cEnv 0 1 1 (cState false) cEnv_wf rfl,
   attachJoint_in_bounds.2.2.2 cEnv 0 1 1 (cState false) cEnv_wf rfl (by decide)⟩

/-- A concrete malformed track: its evaluation (sampling or edge query)
fails. -/
def cBadTrack : FloatTrack :=
  { valid := false, sample := fun _ => 0, crossingsAt := fun _ => [] }

/-- A concrete environment holding the malformed track. -/
def cEnvBadTrack : Env :=
  { duration := 1, numJoints := 1, poseAt := fun _ => some [1], track := cBadTrack }

/-- A concrete environment whose pose evaluation always fails. -/
def cEnvNoPose : Env :=
  { duration := 1, numJoints := 1, poseAt := fun _ => none, track := cTrack }

theorem cEnv_det_deg :
    detectEdges cEnv.track ((1 : ℚ) / cEnv.duration) ((1 : ℚ) / cEnv.duration) (1 / 2)
      = some [] := by
  norm_num [detectEdges, cEnv, cTrack, filterInterval, List.filter]

theorem cEnvNoPose_det_deg :
    detectEdges cEnvNoPose.track ((1 : ℚ) / cEnvNoPose.duration)
      ((1 : ℚ) / cEnvNoPose.duration) (1 / 2) = some [] := by
  norm_num [detectEdges, cEnvNoPose, cTrack, filterInterval, List.filter]

theorem cEnvNoPose_det_full :
    detectEdges cEnvNoPose.track ((0 : ℚ) / cEnvNoPose.duration)
      ((1 : ℚ) / cEnvNoPose.duration) (1 / 2) = some [⟨3 / 4, true⟩] := by
  norm_num [detectEdges, cEnvNoPose, cTrack, filterInterval, List.filter]

/-- C2: under total pose evaluation, the edge-triggered step is exactly:
query the track's edges over the ratio interval from
`previousTime/duration` to `currentTime/duration` with threshold `1/2`,
then fold the per-edge rule over the returned edges in order — each edge
sets `attached := edge.rising`, evaluates the pose at the exact time
`edge.time * duration`, and then captures
`localTransform := Invert (modelMatrices[attachJoint]) * worldTransform`
on a rising edge or
`worldTransform := modelMatrices[attachJoint] * localTransform` on a
falling edge — finishing with the pose evaluated at the current time. -/
theorem triggering_per_edge_spec (env : Env) (pf : ℚ → List M4)
    (hpose : ∀ t, env.poseAt t = some (pf t))
    (tp tc : ℚ) (s : AppState) :
    Update_TriggeringMethod env tp tc s =
      match detectEdges env.track (tp / env.duration) (tc / env.duration) (1 / 2) with
      | none => (s, false)
      | some es => ({ es.foldl (edgeStep env pf) s with models := pf tc }, true) :=
  triggering_char env pf hpose tp tc s

/-- Witness for `triggering_per_edge_spec` at a concrete environment. -/
theorem triggering_per_edge_spec_witness :
    Update_TriggeringMethod cEnv 0 1 (cState false) =
      match detectEdges cEnv.track (0 / cEnv.duration) (1 / cEnv.duration) (1 / 2) with
      | none => (cState false, false)
      | some es =>
        ({ es.foldl (edgeStep cEnv (fun _ => [1])) (cState false) with
             models := [1] }, true) :=
  triggering_per_edge_spec cEnv (fun _ => [1]) (fun _ => rfl) 0 1 (cState false)

/-- C3: every successful edge-triggered step ends with a pose evaluation
at the current time, performed even when the edge query returned no edges;
on a degenerate interval (`previousTime = currentTime`, zero edges) the
step performs only this final pose evaluation and leaves the attachment
flag and both box transforms untouched. -/
theorem triggering_final_eval (env : Env) (tp tc : ℚ) (s : AppState) :
    (∀ s' : AppState, Update_TriggeringMethod env tp tc s = (s', true) →
        ∃ m, env.poseAt tc = some m ∧ s'.models = m)
    ∧ (tp = tc → env.track.valid = true →
        ∀ m, env.poseAt tc = some m →
          Update_TriggeringMethod env tp tc s = ({ s with models := m }, true)) := by
  constructor
  · intro s' h
    unfold Update_TriggeringMethod at h
    cases hd : detectEdges env.track (tp / env.duration) (tc / env.duration) (1 / 2) with
    | none =>
      rw [hd] at h
      simp at h
    | some es =>
      rw [hd] at h
      simp only [] at h
      cases hp : processEdges env es s with
      | mk s1 ok =>
        rw [hp] at h
        cases ok with
        | false => simp at h
        | true =>
          unfold Update_Joints at h
          cases hu : env.poseAt tc with
          | none =>
            rw [hu] at h
            simp at h
          | some m =>
            rw [hu] at h
            have hs : ({ s1 with models := m } : AppState) = s' := congrArg Prod.fst h
            refine ⟨m, rfl, ?_⟩
            rw [← hs]
  · intro hpc hvalid m hm
    subst hpc
    unfold Update_TriggeringMethod
    have hdz : detectEdges env.track (tp / env.duration) (tp / env.duration) (1 / 2)
        = some [] := by
      simp [detectEdges, hvalid, filterInterval_self]
    rw [hdz]
    simp only [processEdges]
    exact Update_Joints_some env tp s m hm

/-- Witness for `triggering_final_eval` exercising the degenerate-interval
part at a concrete environment. -/
theorem triggering_final_eval_witness :
    Update_TriggeringMethod cEnv 1 1 (cState false)
      = ({ cState false with models := [1] }, true) :=
  (triggering_final_eval cEnv 1 1 (cState false)).2 rfl rfl [1] rfl

/-- C4: a successful direct-sampling step evaluates the pose at the
current time, samples the track at ratio `currentTime/duration`, sets the
attachment flag to `sampledValue ≠ 0`, recomputes the box local transform
as `Invert (modelMatrices[attachJoint]) * worldTransform` exactly on a
false-to-true transition (leaving it unchanged on a true-to-false
transition or when no transition happens), and never writes the box world
transform. -/
theorem sampling_method_spec (env : Env) (tc : ℚ) (s : AppState) (m : List M4)
    (hm : env.poseAt tc = some m) (hvalid : env.track.valid = true) :
    Update_SamplingMethod env tc s =
      ({ attached := decide (env.track.sample (tc / env.duration) ≠ 0),
         attachJoint := s.attachJoint,
         boxWorld := s.boxWorld,
         boxLocal :=
           if env.track.sample (tc / env.duration) ≠ 0 ∧ s.attached = false
           then Invert (m.getD s.attachJoint 1) * s.boxWorld
           else s.boxLocal,
         models := m }, true) := by
  unfold Update_SamplingMethod
  rw [Update_Joints_some env tc s m hm]
  simp only []
  unfold FloatTrackSamplingJob_Run
  rw [hvalid]
  simp only [if_true, ite_true]
  by_cases hv : env.track.sample (tc / env.duration) = 0
  · simp [hv]
  · cases ha : s.attached <;> simp [hv, ha]

/-- Witness for `sampling_method_spec` at a concrete environment. -/
theorem sampling_method_spec_witness :
    Update_SamplingMethod cEnv 1 (cState false) =
      ({ attached := decide (cEnv.track.sample (1 / cEnv.duration) ≠ 0),
         attachJoint := (cState false).attachJoint,
         boxWorld := (cState false).boxWorld,
         boxLocal :=
           if cEnv.track.sample (1 / cEnv.duration) ≠ 0 ∧ (cState false).attached = false
           then Invert (([1] : List M4).getD (cState false).attachJoint 1)
                  * (cState false).boxWorld
           else (cState false).boxLocal,
         models := [1] }, true) :=
  sampling_method_spec cEnv 1 (cState false) [1] rfl rfl

/-- C5: at the end of every step, once either policy's update has
succeeded with state `s1`, the box world transform is recomputed as
`models_[attach_joint_] * box_local_transform_` exactly when attached and
is left completely unchanged otherwise, and the box local transform is
never modified by this final stage. -/
theorem onupdate_framing (env : Env) (tp tc : ℚ) (method : ℤ) (s s1 : AppState)
    (h : (if method = 0 then Update_SamplingMethod env tc s
          else Update_TriggeringMethod env tp tc s) = (s1, true)) :
    OnUpdate env tp tc method s =
      ((if s1.attached
        then { s1 with boxWorld := s1.models.getD s1.attachJoint 1 * s1.boxLocal }
        else s1), true)
    ∧ ((OnUpdate env tp tc method s).1).boxLocal = s1.boxLocal
    ∧ (s1.attached = false →
        ((OnUpdate env tp tc method s).1).boxWorld = s1.boxWorld) := by
  have hmain : OnUpdate env tp tc method s =
      ((if s1.attached
        then { s1 with boxWorld := s1.models.getD s1.attachJoint 1 * s1.boxLocal }
        else s1), true) := by
    unfold OnUpdate
    rw [h]
    cases ha : s1.attached <;> simp [ha]
  refine ⟨hmain, ?_, ?_⟩
  · rw [hmain]
    cases ha : s1.attached <;> simp [ha]
  · intro ha
    rw [hmain]
    simp [ha]

/-- Witness for `onupdate_framing` at a concrete (detached) step. -/
theorem onupdate_framing_witness :
    OnUpdate cEnv 1 1 1 (cState false) =
      ((if ({ cState false with models := [1] } : AppState).attached
        then { { cState false with models := [1] } with
                 boxWorld := (({ cState false with models := [1] } : AppState).models.getD
                   ({ cState false with models := [1] } : AppState).attachJoint 1)
                   * ({ cState false with models := [1] } : AppState).boxLocal }
        else { cState false with models := [1] }), true)
    ∧ ((OnUpdate cEnv 1 1 1 (cState false)).1).boxLocal
        = ({ cState false with models := [1] } : AppState).boxLocal
    ∧ (({ cState false with models := [1] } : AppState).attached = false →
        ((OnUpdate cEnv 1 1 1 (cState false)).1).boxWorld
          = ({ cState false with models := [1] } : AppState).boxWorld) :=
  onupdate_framing cEnv 1 1 1 (cState false) { cState false with models := [1] } (by
    rw [if_neg (by norm_num : ¬ (1 : ℤ) = 0),
      triggering_char cEnv (fun _ => [1]) (fun _ => rfl) 1 1 (cState false), cEnv_det_deg]
    rfl)

/-- C6: any failure — the edge query failing, a per-edge pose evaluation
failing, or the final pose evaluation failing — makes the edge-triggered
step return failure, and the returned state is exactly the state reached
so far (mutations by earlier edges are kept; there is no rollback). -/
theorem triggering_failure_no_rollback (env : Env) (tp tc : ℚ) (s : AppState) :
    (detectEdges env.track (tp / env.duration) (tc / env.duration) (1 / 2) = none →
        Update_TriggeringMethod env tp tc s = (s, false))
    ∧ (∀ (es : List Edge) (s1 : AppState),
        detectEdges env.track (tp / env.duration) (tc / env.duration) (1 / 2) = some es →
        processEdges env es s = (s1, false) →
        Update_TriggeringMethod env tp tc s = (s1, false))
    ∧ (∀ (es : List Edge) (s1 : AppState),
        detectEdges env.track (tp / env.duration) (tc / env.duration) (1 / 2) = some es →
        processEdges env es s = (s1, true) → env.poseAt tc = none →
        Update_TriggeringMethod env tp tc s = (s1, false)) := by
  refine ⟨?_, ?_, ?_⟩
  · intro hd
    unfold Update_TriggeringMethod
    rw [hd]
  · intro es s1 hd hp
    unfold Update_TriggeringMethod
    rw [hd]
    simp only []
    rw [hp]
  · intro es s1 hd hp hu
    unfold Update_TriggeringMethod
    rw [hd]
    simp only []
    rw [hp]
    exact Update_Joints_none env tc s1 hu

/-- Witness for `triggering_failure_no_rollback`: a malformed track makes
the edge query fail, and a failing final pose evaluation fails the step
even over a degenerate interval. -/
theorem triggering_failure_no_rollback_witness :
    Update_TriggeringMethod cEnvBadTrack 0 1 (cState false) = (cState false, false)
    ∧ Update_TriggeringMethod cEnvNoPose 1 1 (cState false) = (cState false, false) :=
  ⟨(triggering_failure_no_rollback cEnvBadTrack 0 1 (cState false)).1 rfl,
   (triggering_failure_no_rollback cEnvNoPose 1 1 (cState false)).2.2 [] (cState false)
     cEnvNoPose_det_deg rfl rfl⟩

/-- C9: when the pose evaluation fails at edge `i` of the edge-triggered
step, the step returns failure with the attachment flag already set to
that edge's `rising` value while both box transforms still hold the
values they had after the previous edges, so the flag and the transforms
can disagree after a failed step. -/
theorem triggering_midstep_flag (env : Env) (tp tc : ℚ) (s sA : AppState)
    (e1 : List Edge) (e : Edge) (e2 : List Edge)
    (hdet : detectEdges env.track (tp / env.duration) (tc / env.duration) (1 / 2)
        = some (e1 ++ e :: e2))
    (hpre : processEdges env e1 s = (sA, true))
    (hfail : env.poseAt (e.time * env.duration) = none) :
    Update_TriggeringMethod env tp tc s = ({ sA with attached := e.rising }, false)
    ∧ ({ sA with attached := e.rising } : AppState).boxLocal = sA.boxLocal
    ∧ ({ sA with attached := e.rising } : AppState).boxWorld = sA.boxWorld := by
  refine ⟨?_, rfl, rfl⟩
  unfold Update_TriggeringMethod
  rw [hdet]
  simp only []
  rw [processEdges_append env e1 (e :: e2) s sA hpre]
  simp only [processEdges, Update_Joints, hfail]

/-- Witness for `triggering_midstep_flag`: the pose evaluation fails at
the single rising edge of the concrete track. -/
theorem triggering_midstep_flag_witness :
    Update_TriggeringMethod cEnvNoPose 0 1 (cState false)
        = ({ cState false with attached := true }, false)
    ∧ ({ cState false with attached := true } : AppState).boxLocal
        = (cState false).boxLocal
    ∧ ({ cState false with attached := true } : AppState).boxWorld
        = (cState false).boxWorld :=
  triggering_midstep_flag cEnvNoPose 0 1 (cState false) (cState false) [] ⟨3 / 4, true⟩ []
    cEnvNoPose_det_full rfl rfl

/-! ### Frame-rate independence of the edge-triggered policy -/

theorem detectEdges_eq (track : FloatTrack) (lo hi thr : ℚ) (es : List Edge)
    (hv : track.valid = true)
    (hf : filterInterval lo hi (track.crossingsAt thr) = es)
    (hlen : es.length ≤ 8) :
    detectEdges track lo hi thr = some es := by
  unfold detectEdges
  rw [hv, hf]
  simp [hlen]

theorem tailStep_tailStep (pf : ℚ → List M4) (t1 tm : ℚ) (s : AppState) :
    tailStep pf t1 (tailStep pf tm s) = tailStep pf t1 s := by
  cases ha : s.attached <;> simp [tailStep, ha]

theorem edgeStep_after_tailStep (env : Env) (pf : ℚ → List M4) (tm : ℚ)
    (s : AppState) (e : Edge) (hcons : e.rising = true → s.attached = false) :
    edgeStep env pf (tailStep pf tm s) e = edgeStep env pf s e := by
  cases hr : e.rising with
  | false => cases ha : s.attached <;> simp [edgeStep, tailStep, hr, ha]
  | true =>
    have ha : s.attached = false := hcons hr
    simp [edgeStep, tailStep, hr, ha]

/-- C1 (amended): frame-rate independence of the edge-triggered policy.
For a track whose threshold-1/2 crossings are strictly ordered in time and
cross exactly once within `[t0, t0 + d]`, one policy B step of size `d`
(the triggering update followed by `OnUpdate`'s framing stage) yields the
same final attachment flag and box transforms as two consecutive policy B
steps of size `d/2`, over exact arithmetic, provided the initial
attachment flag is `false` when the single crossing is a rising edge. -/
theorem policyB_framerate_independent (env : Env) (pf : ℚ → List M4)
    (t0 d : ℚ) (s : AppState) (e : Edge)
    (hdur : 0 < env.duration) (hd : 0 ≤ d)
    (hpose : ∀ t, env.poseAt t = some (pf t))
    (hsorted : List.Pairwise (fun x y : Edge => x.time < y.time)
        (env.track.crossingsAt (1 / 2)))
    (hvalid : env.track.valid = true)
    (hone : filterInterval (t0 / env.duration) ((t0 + d) / env.duration)
        (env.track.crossingsAt (1 / 2)) = [e])
    (hcons : e.rising = true → s.attached = false) :
    OnUpdate env t0 (t0 + d) 1 s
        = OnUpdate env (t0 + d / 2) (t0 + d) 1 ((OnUpdate env t0 (t0 + d / 2) 1 s).1)
    ∧ (OnUpdate env t0 (t0 + d / 2) 1 s).2 = true
    ∧ (OnUpdate env (t0 + d / 2) (t0 + d) 1
        ((OnUpdate env t0 (t0 + d / 2) 1 s).1)).2 = true := by
  have h01 : t0 ≤ t0 + d / 2 := by linarith
  have h12 : t0 + d / 2 ≤ t0 + d := by linarith
  have hr01 : t0 / env.duration ≤ (t0 + d / 2) / env.duration :=
    (div_le_div_iff_of_pos_right hdur).mpr h01
  have hr12 : (t0 + d / 2) / env.duration ≤ (t0 + d) / env.duration :=
    (div_le_div_iff_of_pos_right hdur).mpr h12
  have hsplit := filterInterval_split (t0 / env.duration)
    ((t0 + d / 2) / env.duration) ((t0 + d) / env.duration) hr01 hr12
    (env.track.crossingsAt (1 / 2)) hsorted
  have hab : filterInterval (t0 / env.duration) ((t0 + d / 2) / env.duration)
        (env.track.crossingsAt (1 / 2))
      ++ filterInterval ((t0 + d / 2) / env.duration) ((t0 + d) / env.duration)
        (env.track.crossingsAt (1 / 2)) = [e] :=
    hsplit.symm.trans hone
  have hdetFull : detectEdges env.track (t0 / env.duration) ((t0 + d) / env.duration)
      (1 / 2) = some [e] :=
    detectEdges_eq _ _ _ _ _ hvalid hone (by simp)
  rcases appendEqSingleton _ _ e hab with ⟨hA, hB⟩ | ⟨hA, hB⟩
  · -- the crossing lies in the first half step
    have hdet1 : detectEdges env.track (t0 / env.duration)
        ((t0 + d / 2) / env.duration) (1 / 2) = some [e] :=
      detectEdges_eq _ _ _ _ _ hvalid hA (by simp)
    have hdet2 : detectEdges env.track ((t0 + d / 2) / env.duration)
        ((t0 + d) / env.duration) (1 / 2) = some [] :=
      detectEdges_eq _ _ _ _ _ hvalid hB (by simp)
    rw [fullB_char env pf hpose t0 (t0 + d / 2) s [e] hdet1]
    simp only [List.foldl_cons, List.foldl_nil]
    rw [fullB_char env pf hpose (t0 + d / 2) (t0 + d) _ [] hdet2,
      fullB_char env pf hpose t0 (t0 + d) s [e] hdetFull]
    simp only [List.foldl_cons, List.foldl_nil]
    refine ⟨?_, by simp, by simp⟩
    rw [tailStep_tailStep]
  · -- the crossing lies in the second half step
    have hdet1 : detectEdges env.track (t0 / env.duration)
        ((t0 + d / 2) / env.duration) (1 / 2) = some [] :=
      detectEdges_eq _ _ _ _ _ hvalid hA (by simp)
    have hdet2 : detectEdges env.track ((t0 + d / 2) / env.duration)
        ((t0 + d) / env.duration) (1 / 2) = some [e] :=
      detectEdges_eq _ _ _ _ _ hvalid hB (by simp)
    rw [fullB_char env pf hpose t0 (t0 + d / 2) s [] hdet1]
    simp only [List.foldl_cons, List.foldl_nil]
    rw [fullB_char env pf hpose (t0 + d / 2) (t0 + d) _ [e] hdet2,
      fullB_char env pf hpose t0 (t0 + d) s [e] hdetFull]
    simp only [List.foldl_cons, List.foldl_nil]
    refine ⟨?_, by simp, by simp⟩
    rw [edgeStep_after_tailStep env pf (t0 + d / 2) s e hcons]

theorem cEnv_det_full :
    detectEdges cEnv.track ((0 : ℚ) / cEnv.duration) ((1 : ℚ) / cEnv.duration) (1 / 2)
      = some [⟨3 / 4, true⟩] := by
  norm_num [detectEdges, cEnv, cTrack, filterInterval, List.filter]

theorem cEnv_det_firstHalf :
    detectEdges cEnv.track ((0 : ℚ) / cEnv.duration) ((1 / 2 : ℚ) / cEnv.duration) (1 / 2)
      = some [] := by
  norm_num [detectEdges, cEnv, cTrack, filterInterval, List.filter]

theorem cEnv_det_secondHalf :
    detectEdges cEnv.track ((1 / 2 : ℚ) / cEnv.duration) ((1 : ℚ) / cEnv.duration) (1 / 2)
      = some [⟨3 / 4, true⟩] := by
  norm_num [detectEdges, cEnv, cTrack, filterInterval, List.filter]

theorem one_ne_two_smul_one : (1 : M4) ≠ (2 : ℚ) • 1 := by
  intro h
  have h00 := congrFun (congrFun h 0) 0
  norm_num [Matrix.smul_apply, Matrix.one_apply] at h00

/-- C1 counterexample: with the concrete single-rising-edge track, unit
duration and identity poses, starting from a state whose attachment flag
is `true` (inconsistent with the track being below the threshold before
its single rising crossing), one policy B step over `[0, 1]` and the two
half steps over `[0, 1/2]` and `[1/2, 1]` all succeed yet capture
different box local transforms — so the claim is false for an arbitrary
initial state. -/
theorem policyB_framerate_dependence_cex :
    (0 : ℚ) < cEnv.duration
    ∧ cEnv.track.valid = true
    ∧ (∀ t : ℚ, cEnv.poseAt t = some [1])
    ∧ List.Pairwise (fun x y : Edge => x.time < y.time) (cEnv.track.crossingsAt (1 / 2))
    ∧ filterInterval ((0 : ℚ) / cEnv.duration) ((1 : ℚ) / cEnv.duration)
        (cEnv.track.crossingsAt (1 / 2)) = [⟨3 / 4, true⟩]
    ∧ (OnUpdate cEnv 0 1 1 (cState true)).2 = true
    ∧ (OnUpdate cEnv 0 (1 / 2) 1 (cState true)).2 = true
    ∧ (OnUpdate cEnv (1 / 2) 1 1 ((OnUpdate cEnv 0 (1 / 2) 1 (cState true)).1)).2 = true
    ∧ ((OnUpdate cEnv 0 1 1 (cState true)).1).boxLocal
        ≠ ((OnUpdate cEnv (1 / 2) 1 1
            ((OnUpdate cEnv 0 (1 / 2) 1 (cState true)).1)).1).boxLocal := by
  have hp : ∀ t : ℚ, cEnv.poseAt t = some ((fun _ => ([1] : List M4)) t) := fun _ => rfl
  have h1 := fullB_char cEnv (fun _ => [1]) hp 0 1 (cState true) [⟨3 / 4, true⟩]
    cEnv_det_full
  have h2 := fullB_char cEnv (fun _ => [1]) hp 0 (1 / 2) (cState true) []
    cEnv_det_firstHalf
  refine ⟨by norm_num [cEnv], rfl, fun _ => rfl, by simp [cEnv, cTrack], ?_, ?_, ?_, ?_, ?_⟩
  · norm_num [cEnv, cTrack, filterInterval, List.filter]
  · rw [h1]
  · rw [h2]
  · rw [h2]
    simp only [List.foldl_nil]
    rw [fullB_char cEnv (fun _ => [1]) hp (1 / 2) 1 _ [⟨3 / 4, true⟩] cEnv_det_secondHalf]
  · rw [h1, h2]
    simp only [List.foldl_nil]
    rw [fullB_char cEnv (fun _ => [1]) hp (1 / 2) 1 _ [⟨3 / 4, true⟩] cEnv_det_secondHalf]
    simp only [List.foldl_cons, List.foldl_nil]
    simp [tailStep, edgeStep, cState, cEnv, Invert_one, List.getD_cons_zero]
    exact one_ne_two_smul_one

/-- Witness for `policyB_framerate_independent` at the concrete track and
a detached initial state. -/
theorem policyB_framerate_independent_witness :
    OnUpdate cEnv 0 (0 + 1) 1 (cState false)
        = OnUpdate cEnv (0 + 1 / 2) (0 + 1) 1
            ((OnUpdate cEnv 0 (0 + 1 / 2) 1 (cState false)).1)
    ∧ (OnUpdate cEnv 0 (0 + 1 / 2) 1 (cState false)).2 = true
    ∧ (OnUpdate cEnv (0 + 1 / 2) (0 + 1) 1
        ((OnUpdate cEnv 0 (0 + 1 / 2) 1 (cState false)).1)).2 = true :=
  policyB_framerate_independent cEnv (fun _ => [1]) 0 1 (cState false) ⟨3 / 4, true⟩
    (by norm_num [cEnv]) (by norm_num) (fun _ => rfl)
    (by simp [cEnv, cTrack]) rfl
    (by norm_num [cEnv, cTrack, filterInterval, List.filter])
    (fun _ => rfl)
